import Mathlib

/-!
# OlapTableSinkOperator / OlapTableSinkOperatorFactory

Shallow embedding of `be/src/exec/pipeline/olap_table_sink_operator.h`.

Objects are identified by their address.  A raw pointer is an optional
address (`none` is the null pointer), a `std::unique_ptr` is an owning handle
that is either empty or holds one object.  `int32_t` values are integers; the
header performs no arithmetic on them.  Effects on the sinks are recorded in a
trace of calls that is passed through every operation explicitly.
-/

namespace starrocks
namespace pipeline

/-! ## Pointers and handles -/

/-- Address of an object. -/
abbrev Addr := Nat

/-- Raw pointer `T*`: the address pointed to, or `none` for the null pointer. -/
abbrev Ptr := Option Addr

/-- Owning handle `std::unique_ptr<starrocks::DataSink>`: empty, or holding one object. -/
structure UniquePtr where
  obj : Option Addr
  deriving DecidableEq, Repr

/-- Member `get()` of a `std::unique_ptr`: the raw pointer to the held object. -/
def UniquePtr.get (p : UniquePtr) : Ptr := p.obj

/-- Move construction `std::unique_ptr<T> dst(std::move(src))`: the first component is
the new handle, which takes over the object, the second is the source handle after
the move, which is left empty. -/
def UniquePtr.move_from (src : UniquePtr) : UniquePtr × UniquePtr :=
  ({ obj := src.obj }, { obj := none })

/-- The objects a handle owns: the held object, if any. -/
def UniquePtr.owned (p : UniquePtr) : List Addr := p.obj.toList

/-- Modelled from the spec: `down_cast<starrocks::stream_load::OlapTableSink*>`, a
template declared outside this header.  Spec §9 describes it as "a narrowing cast in
the factory" from the generic sink handle to the concrete sink type: it changes the
static type of the pointer and leaves the object pointed to as it is. -/
def down_cast (p : Ptr) : Ptr := p

/-! ## Calls on the sinks -/

/-- One call on a sink (the capability set of spec §6: open, send, commit, abort). -/
inductive SinkCall where
  | sink_open
  | sink_send (chunk : Nat)
  | sink_commit
  | sink_abort
  deriving DecidableEq, Repr

/-- The calls made so far, each with the sink it was made on, oldest first. -/
abbrev SinkTrace := List (Ptr × SinkCall)

/-! ## Base classes -/

/-- Modelled from the spec: the base class `Operator` of `exec/pipeline/operator.h`,
which is declared outside this header.  It records the arguments the derived constructor
passes to it (spec §3: "Identity: operator id, plan-node id, driver sequence number"). -/
structure Operator where
  factory : Ptr
  id : Int
  name : String
  plan_node_id : Int
  driver_sequence : Int
  deriving DecidableEq, Repr

/-- Modelled from the spec: the base class `OperatorFactory` of
`exec/pipeline/operator.h`, which is declared outside this header.  It records the three
arguments the derived constructor passes to it.  Spec §3 (OperatorFactory): "Tracks,
across all N created operator instances, how many remain unfinished — this counter is the
synchronization point for the close-once guarantee": `unfinished` is that counter.  Spec
§4.2: "finalize the Sink exactly once": `finalized` records that the finalize has been
made.  The derived class of the header declares neither, so both are kept here. -/
structure OperatorFactory where
  id : Int
  name : String
  plan_node_id : Int
  unfinished : Nat
  finalized : Bool
  deriving DecidableEq, Repr

/-! ## OlapTableSinkOperator -/

/-- The class `OlapTableSinkOperator`: the base sub-object and the four data members
declared in the header, in declaration order. -/
structure OlapTableSinkOperator where
  base : Operator
  _sink : Ptr
  _fragment_ctx : Ptr
  _is_finished : Bool
  _is_open_done : Bool
  deriving DecidableEq, Repr

/-- Constructor `OlapTableSinkOperator(factory, id, plan_node_id, driver_sequence, sink,
fragment_ctx)`: the base is built from `(factory, id, "olap_table_sink", plan_node_id,
driver_sequence)`, `_sink` and `_fragment_ctx` are copied from the arguments, the two
flags take their default member initialisers `false`, and the body is empty.  The
result is the new object together with the trace of sink calls after construction. -/
def OlapTableSinkOperator.new (factory : Ptr) (id plan_node_id driver_sequence : Int)
    (sink : Ptr) (fragment_ctx : Ptr) (tr : SinkTrace) : OlapTableSinkOperator × SinkTrace :=
  ({ base := { factory := factory, id := id, name := "olap_table_sink",
               plan_node_id := plan_node_id, driver_sequence := driver_sequence }
     _sink := sink
     _fragment_ctx := fragment_ctx
     _is_finished := false
     _is_open_done := false }, tr)

/-- Method `bool has_output() const override { return false; }`: the returned value and
the object after the call.  The object is returned because a `const` method may still
write the `mutable` member `_is_open_done`; this one writes nothing. -/
def OlapTableSinkOperator.has_output (op : OlapTableSinkOperator) :
    Bool × OlapTableSinkOperator :=
  (false, op)

/-! ## OlapTableSinkOperatorFactory -/

/-- The class `OlapTableSinkOperatorFactory`: the base sub-object and the three data
members declared in the header, in declaration order. -/
structure OlapTableSinkOperatorFactory where
  base : OperatorFactory
  _data_sink : UniquePtr
  _sink : Ptr
  _fragment_ctx : Ptr
  deriving DecidableEq, Repr

/-- Constructor `OlapTableSinkOperatorFactory(id, sink, fragment_ctx)`.  `sink` is passed
by reference, so the caller's handle after the call is part of the result (second
component).  The members are initialised in declaration order: the base from
`(id, "olap_table_sink", s_pseudo_plan_node_id_for_olap_table_sink)`, then `_data_sink`
by move from `sink`, then `_sink` from `_data_sink.get()` read after that move, then
`_fragment_ctx`.  The constant `s_pseudo_plan_node_id_for_olap_table_sink` is declared
outside the header and is a parameter.  A new factory has created no instance and
finalized nothing. -/
def OlapTableSinkOperatorFactory.new (s_pseudo_plan_node_id_for_olap_table_sink : Int)
    (id : Int) (sink : UniquePtr) (fragment_ctx : Ptr) :
    OlapTableSinkOperatorFactory × UniquePtr :=
  let base : OperatorFactory :=
    { id := id, name := "olap_table_sink",
      plan_node_id := s_pseudo_plan_node_id_for_olap_table_sink,
      unfinished := 0, finalized := false }
  let moved := UniquePtr.move_from sink
  let data_sink := moved.1
  let sink_after := moved.2
  let typed := down_cast data_sink.get
  ({ base := base, _data_sink := data_sink, _sink := typed,
     _fragment_ctx := fragment_ctx }, sink_after)

/-- The objects the factory owns: those held by its one owning member `_data_sink`
(`_sink` and `_fragment_ctx` are raw pointers and own nothing). -/
def OlapTableSinkOperatorFactory.owned (f : OlapTableSinkOperatorFactory) : List Addr :=
  f._data_sink.owned

/-- Modelled from the spec: `OlapTableSinkOperatorFactory::create`, declared non-`const`
in the header and defined outside it.  Spec §4.2: "builds one instance bound to a
specific driver sequence in [0, degree_of_parallelism); all instances reference the one
owned Sink."  The instance is built by the constructor of the header from the factory
itself (`self` is the address of the factory), the identity the factory got at
construction, the given driver sequence, and the factory's `_sink` and `_fragment_ctx`;
the degree of parallelism is not needed to build it.  Spec §3: the factory tracks "across
all N created operator instances, how many remain unfinished": the new instance is not
finished, so the counter goes up by one.  The result is the instance, the factory after
the call and the trace of sink calls after the call. -/
def OlapTableSinkOperatorFactory.create (f : OlapTableSinkOperatorFactory) (self : Ptr)
    (degree_of_parallelism driver_sequence : Int) (tr : SinkTrace) :
    OlapTableSinkOperator × OlapTableSinkOperatorFactory × SinkTrace :=
  let _ := degree_of_parallelism
  let r := OlapTableSinkOperator.new self f.base.id f.base.plan_node_id driver_sequence
    f._sink f._fragment_ctx tr
  (r.1, { f with base := { f.base with unfinished := f.base.unfinished + 1 } }, r.2)

/-- Modelled from the spec: how one instance ended, as the factory's `close` finds it
(spec §4.1: "FINISHED and CANCELLED are terminal"; §8: "a failure or CANCELLED state").
The header has no type for it. -/
inductive Terminal where
  | FINISHED
  | FAILED
  | CANCELLED
  deriving DecidableEq, Repr

/-- Modelled from the spec: the finalize decision of `OlapTableSinkOperatorFactory::close`,
declared in the header and defined outside it.  Spec §4.2: "If any instance
ended in CANCELLED or with failure, this finalize must abort rather than commit the
Sink's pending work"; §7: "A failure from any single instance must prevent the factory
from committing the shared Sink; it must abort instead."  `ended` lists how each created
instance ended. -/
def OlapTableSinkOperatorFactory.finalize (ended : List Terminal) : SinkCall :=
  if ended.all (fun t => decide (t = Terminal.FINISHED)) then SinkCall.sink_commit
  else SinkCall.sink_abort

/-- Modelled from the spec: `OlapTableSinkOperatorFactory::close`, declared in the header
and defined outside it.  Spec §4.2: "factory-wide teardown; must wait for (or
verify) that all created instances are terminal, then finalize the Sink exactly once".
It makes the one finalize call on the factory's sink. -/
def OlapTableSinkOperatorFactory.close (f : OlapTableSinkOperatorFactory)
    (ended : List Terminal) (tr : SinkTrace) : SinkTrace :=
  tr ++ [(f._sink, OlapTableSinkOperatorFactory.finalize ended)]

/-- Modelled from the spec: one call of `OlapTableSinkOperatorFactory::close` as the
framework makes it.  Spec §4.2: "must wait for (or verify) that all created instances
are terminal, then finalize the Sink exactly once"; §4.3: "the factory's own explicit
`close` call after the driver confirms all instances terminal — performs the one
finalize/abort call on the Sink".  When the counter of unfinished instances is zero and
no finalize has been made yet, the finalize is made and recorded; otherwise the call
changes nothing.  `ended` lists how the instances ended. -/
def OlapTableSinkOperatorFactory.close_when_terminal (f : OlapTableSinkOperatorFactory)
    (ended : List Terminal) (tr : SinkTrace) : OlapTableSinkOperatorFactory × SinkTrace :=
  if f.base.unfinished = 0 ∧ f.base.finalized = false then
    ({ f with base := { f.base with finalized := true } }, f.close ended tr)
  else (f, tr)

/-! ## Operations of one instance whose bodies are outside the header -/

/-- Modelled from the spec: the result type `Status`, declared outside this header, with
the error kinds of spec §7. -/
inductive Status where
  | OK
  | InitializationError
  | ForwardingError
  | CancellationError
  | FinalizationError
  deriving DecidableEq, Repr

/-- What a method of an instance can reach besides its own object: the factory (through
the `OperatorFactory*` it was constructed with), the sinks (through `_sink`), and the
terminal states reported so far. -/
structure World where
  factory : OlapTableSinkOperatorFactory
  trace : SinkTrace
  ended : List Terminal
  deriving DecidableEq, Repr

/-- One call `c` on the sink `p`, appended to the trace. -/
def World.sink_call (w : World) (p : Ptr) (c : SinkCall) : World :=
  { w with trace := w.trace ++ [(p, c)] }

/-- Modelled from the spec: what an instance does when it becomes terminal.  Spec §4.3:
"the factory maintains a count of instances not yet terminal; as each instance
transitions to FINISHED/CANCELLED, it decrements".  The counter of the factory goes down
by one and the terminal state `t` is reported. -/
def World.report_terminal (w : World) (t : Terminal) : World :=
  { w with
    factory := { w.factory with
      base := { w.factory.base with unfinished := w.factory.base.unfinished - 1 } }
    ended := w.ended ++ [t] }

/-- Modelled from the spec: `OlapTableSinkOperator::is_finished`, declared `const` in the
header and defined outside it.  It reads the member `_is_finished` (spec §3:
"`is_finished` (terminal, no more work will occur)"). -/
def OlapTableSinkOperator.is_finished (op : OlapTableSinkOperator) : Bool :=
  op._is_finished

/-- Modelled from the spec: `OlapTableSinkOperator::prepare`, defined outside the header.
Spec §4.1: "one-time setup; allocates resources; fails with an initialization error if
the Sink or downstream resources cannot be readied."  Whether the sink could be readied
is an input. -/
def OlapTableSinkOperator.prepare (op : OlapTableSinkOperator) (sink_ready : Bool)
    (w : World) : Status × OlapTableSinkOperator × World :=
  (if sink_ready then Status.OK else Status.InitializationError, op, w)

/-- Modelled from the spec: `OlapTableSinkOperator::need_input`, declared `const` in the
header and defined outside it.  Spec §4.1: "true if this instance is ready to
accept another chunk (false while an asynchronous send is outstanding)"; §3: once
finished "no further chunks are pushed to it".  Whether a send is outstanding is an
input. -/
def OlapTableSinkOperator.need_input (op : OlapTableSinkOperator) (send_outstanding : Bool)
    (w : World) : Bool × OlapTableSinkOperator × World :=
  (!op._is_finished && !send_outstanding, op, w)

/-- Modelled from the spec: `OlapTableSinkOperator::push_chunk`, defined outside the
header.  Spec §4.1: "accepts one chunk; on first call for this instance, lazily triggers
the Sink's open coordination (see 4.3) before any send; forwards the chunk to the Sink
... Fails with a forwarding error if the Sink rejects the chunk".  The only guard the
header declares is the member `_is_open_done` of the instance: when it is not set the
instance opens its sink and sets it; then the chunk is sent.  Whether the sink accepts
the chunk is an input. -/
def OlapTableSinkOperator.push_chunk (op : OlapTableSinkOperator) (chunk : Nat)
    (sink_accepts : Bool) (w : World) : Status × OlapTableSinkOperator × World :=
  let w₁ := if op._is_open_done then w else w.sink_call op._sink SinkCall.sink_open
  let w₂ := w₁.sink_call op._sink (SinkCall.sink_send chunk)
  (if sink_accepts then Status.OK else Status.ForwardingError,
   { op with _is_open_done := true }, w₂)

/-- Modelled from the spec: `OlapTableSinkOperator::set_finishing`, defined outside the
header.  Spec §4.1: "called once the driver knows no more chunks will arrive;
transitions the instance into the finishing sequence ... without blocking".  After it
the driver only polls the `const` methods `pending_finish` and `is_finished` (§6), which
cannot write the non-`mutable` member `_is_finished`, so the member is set here; an
instance that was not finished before reports FINISHED (§4.3). -/
def OlapTableSinkOperator.set_finishing (op : OlapTableSinkOperator) (w : World) :
    Status × OlapTableSinkOperator × World :=
  (Status.OK, { op with _is_finished := true },
   if op._is_finished then w else w.report_terminal Terminal.FINISHED)

/-- Modelled from the spec: `OlapTableSinkOperator::pending_finish`, declared `const` in
the header and defined outside it.  Spec §4.1: "true while finishing has been
requested but asynchronous drains/flushes for this instance have not yet completed".
Whether the drains have completed is an input. -/
def OlapTableSinkOperator.pending_finish (op : OlapTableSinkOperator) (drained : Bool)
    (w : World) : Bool × OlapTableSinkOperator × World :=
  (op._is_finished && !drained, op, w)

/-- Modelled from the spec: `OlapTableSinkOperator::set_cancelled`, defined outside the
header.  Spec §4.1: "abandons outstanding work, fails fast, and moves the instance
directly toward a terminal cancelled state"; §5: it "must cause `is_finished` to
eventually become true without further input".  An instance that was not finished
before reports CANCELLED (§4.3). -/
def OlapTableSinkOperator.set_cancelled (op : OlapTableSinkOperator) (w : World) :
    Status × OlapTableSinkOperator × World :=
  (Status.OK, { op with _is_finished := true },
   if op._is_finished then w else w.report_terminal Terminal.CANCELLED)

/-- Modelled from the spec: `OlapTableSinkOperator::close`, defined outside the header.
Spec §4.1: "releases instance-local resources; always safe to call".  The data members
of the header keep their values. -/
def OlapTableSinkOperator.close (op : OlapTableSinkOperator) (w : World) :
    OlapTableSinkOperator × World :=
  (op, w)

/-- One call a driver makes on its instance, with the chunk it passes and the answers
of the sink that the call depends on. -/
inductive Call where
  | prepare (sink_ready : Bool)
  | has_output
  | need_input (send_outstanding : Bool)
  | push_chunk (chunk : Nat) (sink_accepts : Bool)
  | set_finishing
  | pending_finish (drained : Bool)
  | set_cancelled
  | close
  deriving DecidableEq, Repr

/-- The instance and what it can reach, after one call. -/
def Call.exec (c : Call) (op : OlapTableSinkOperator) (w : World) :
    OlapTableSinkOperator × World :=
  match c with
  | Call.prepare sink_ready => (op.prepare sink_ready w).2
  | Call.has_output => (op.has_output.2, w)
  | Call.need_input send_outstanding => (op.need_input send_outstanding w).2
  | Call.push_chunk chunk sink_accepts => (op.push_chunk chunk sink_accepts w).2
  | Call.set_finishing => (op.set_finishing w).2
  | Call.pending_finish drained => (op.pending_finish drained w).2
  | Call.set_cancelled => (op.set_cancelled w).2
  | Call.close => op.close w

/-- The instance and what it can reach, after a sequence of calls made in order. -/
def OlapTableSinkOperator.after (op : OlapTableSinkOperator) (calls : List Call)
    (w : World) : OlapTableSinkOperator × World :=
  calls.foldl (fun r c => c.exec r.1 r.2) (op, w)

/-! ## A factory together with the instances it created -/

/-- Apply `g` to the element at position `i`, leaving the other elements as they are. -/
def modifyAt {α : Type} (g : α → α) : List α → Nat → List α
  | [], _ => []
  | a :: as, 0 => g a :: as
  | a :: as, i + 1 => a :: modifyAt g as i

/-- Assignment `_is_open_done = true` on one object. -/
def OlapTableSinkOperator.record_open_done (op : OlapTableSinkOperator) :
    OlapTableSinkOperator :=
  { op with _is_open_done := true }

/-- A factory object at address `self`, the instances it has created so far (each one a
separate object), the calls made on the sinks, and the terminal states reported. -/
structure System where
  factory : OlapTableSinkOperatorFactory
  self : Ptr
  instances : List OlapTableSinkOperator
  trace : SinkTrace
  ended : List Terminal
  deriving DecidableEq, Repr

/-- The assignment `_is_open_done = true` made on the instance at position `i`. -/
def System.record_open_done_at (s : System) (i : Nat) : System :=
  { s with instances := modifyAt OlapTableSinkOperator.record_open_done s.instances i }

/-- What instance `j` reads from its guard `_is_open_done` (`none` if there is no such
instance). -/
def System.observes_open_done (s : System) (j : Nat) : Option Bool :=
  (s.instances[j]?).map (fun op => op._is_open_done)

/-- One step of the whole: the factory creates an instance, the driver of instance `i`
makes a call on it, or the framework calls the factory's `close`. -/
inductive Event where
  | create (degree_of_parallelism driver_sequence : Int)
  | call (i : Nat) (c : Call)
  | close
  deriving DecidableEq, Repr

/-- Whether the event is a creation. -/
def Event.is_create (e : Event) : Bool :=
  match e with
  | Event.create _ _ => true
  | _ => false

/-- The state after one event.  Every part of the state that the called operation can
reach is handed to it and taken back from its result; a call on an instance that does
not exist is not made. -/
def System.step (s : System) (e : Event) : System :=
  match e with
  | Event.create degree_of_parallelism driver_sequence =>
    let r := s.factory.create s.self degree_of_parallelism driver_sequence s.trace
    { s with factory := r.2.1, instances := s.instances ++ [r.1], trace := r.2.2 }
  | Event.call i c =>
    match s.instances[i]? with
    | none => s
    | some op =>
      let r := c.exec op { factory := s.factory, trace := s.trace, ended := s.ended }
      { s with
        factory := r.2.factory
        instances := modifyAt (fun _ => r.1) s.instances i
        trace := r.2.trace
        ended := r.2.ended }
  | Event.close =>
    let r := s.factory.close_when_terminal s.ended s.trace
    { s with factory := r.1, trace := r.2 }

/-- The state after a sequence of events. -/
def System.run (s : System) (evs : List Event) : System :=
  evs.foldl System.step s

/-- The state right after the factory at address `self` has been constructed: no
instance yet, no call on any sink yet, nothing reported. -/
def System.init (s_pseudo_plan_node_id_for_olap_table_sink : Int) (id : Int)
    (sink : UniquePtr) (fragment_ctx : Ptr) (self : Ptr) : System :=
  { factory := (OlapTableSinkOperatorFactory.new s_pseudo_plan_node_id_for_olap_table_sink
      id sink fragment_ctx).1
    self := self
    instances := []
    trace := []
    ended := [] }

/-- The state `s` after `k` more instances have been created, for the driver sequences
`0, ..., k - 1` and the given degree of parallelism. -/
def System.create_upto (s : System) (degree_of_parallelism : Int) : Nat → System
  | 0 => s
  | k + 1 =>
    (System.create_upto s degree_of_parallelism k).step
      (Event.create degree_of_parallelism (k : Int))

/-- The state in which execution begins (spec §2: "The factory instantiates all operator
instances before execution begins"): the factory has been constructed and has created
its `n` instances, one per driver sequence in `[0, n)`. -/
def System.start (s_pseudo_plan_node_id_for_olap_table_sink : Int) (id : Int)
    (sink : UniquePtr) (fragment_ctx : Ptr) (self : Ptr) (n : Nat) : System :=
  System.create_upto
    (System.init s_pseudo_plan_node_id_for_olap_table_sink id sink fragment_ctx self)
    (n : Int) n

/-- Number of created instances whose `is_finished()` is still false. -/
def System.unfinished (s : System) : Nat :=
  s.instances.countP (fun op => !op.is_finished)

/-- Number of created instances whose guard `_is_open_done` is set. -/
def System.opened_instances (s : System) : Nat :=
  s.instances.countP (fun op => op._is_open_done)

/-- Number of open calls made on the factory's sink. -/
def System.open_count (s : System) : Nat :=
  s.trace.count (s.factory._sink, SinkCall.sink_open)

/-- Number of finalize calls (commit or abort) made on the factory's sink. -/
def System.finalize_count (s : System) : Nat :=
  s.trace.count (s.factory._sink, SinkCall.sink_commit)
    + s.trace.count (s.factory._sink, SinkCall.sink_abort)

/-- What holds in every state reached from a newly constructed factory: the counter of
the factory is the number of unfinished instances, every instance refers to the
factory's sink, the opens made are as many as the guards set, the finalizes made are
one or none as recorded, and every finished instance has reported. -/
def System.Inv (s : System) : Prop :=
  s.factory.base.unfinished = s.unfinished
  ∧ (∀ op ∈ s.instances, op._sink = s.factory._sink)
  ∧ s.open_count = s.opened_instances
  ∧ s.finalize_count = (if s.factory.base.finalized then 1 else 0)
  ∧ s.ended.length + s.unfinished = s.instances.length

/-! ## Concrete objects used in the examples below -/

/-- A factory built by its constructor from a handle holding the sink at address 100 and
the fragment context at address 200. -/
def sample_factory : OlapTableSinkOperatorFactory :=
  (OlapTableSinkOperatorFactory.new (-1) 7 { obj := some 100 } (some 200)).1

/-- The state right after the construction of the same factory at address 1. -/
def sample_init : System :=
  System.init (-1) 7 { obj := some 100 } (some 200) (some 1)

/-- The same factory at address 1 with the two instances it created for the driver
sequences 0 and 1 (each built by the constructor of the header from the factory's own
`_sink` and `_fragment_ctx`). -/
def sample_pair : System :=
  System.start (-1) 7 { obj := some 100 } (some 200) (some 1) 2

/-- What an instance of `sample_factory` can reach before anything has happened. -/
def sample_world : World :=
  { factory := sample_factory, trace := [], ended := [] }

/-! ## Auxiliary facts -/

theorem modifyAt_length {α : Type} (g : α → α) (l : List α) (i : Nat) :
    (modifyAt g l i).length = l.length := by
  induction l generalizing i with
  | nil => rfl
  | cons a as ih =>
    cases i with
    | zero => rfl
    | succ k => simp [modifyAt, ih]

theorem modifyAt_getElem?_ne {α : Type} (g : α → α) (l : List α) (i j : Nat) (h : i ≠ j) :
    (modifyAt g l i)[j]? = l[j]? := by
  induction l generalizing i j with
  | nil => rfl
  | cons a as ih =>
    cases i with
    | zero =>
      cases j with
      | zero => exact absurd rfl h
      | succ m => simp [modifyAt]
    | succ k =>
      cases j with
      | zero => simp [modifyAt]
      | succ m =>
        have hkm : k ≠ m := fun e => h (by rw [e])
        simp [modifyAt, ih k m hkm]

theorem modifyAt_getElem?_self {α : Type} (g : α → α) (l : List α) (i : Nat) :
    (modifyAt g l i)[i]? = (l[i]?).map g := by
  induction l generalizing i with
  | nil => rfl
  | cons a as ih =>
    cases i with
    | zero => simp [modifyAt]
    | succ k => simp [modifyAt, ih k]

theorem countP_modifyAt {α : Type} (p : α → Bool) (g : α → α) (l : List α) (i : Nat)
    (a : α) (h : l[i]? = some a) :
    (modifyAt g l i).countP p + (if p a then 1 else 0)
      = l.countP p + (if p (g a) then 1 else 0) := by
  induction l generalizing i with
  | nil => simp at h
  | cons b bs ih =>
    cases i with
    | zero =>
      simp at h
      subst h
      simp only [modifyAt, List.countP_cons]
      omega
    | succ k =>
      simp at h
      have := ih k h
      simp only [modifyAt, List.countP_cons]
      omega

theorem mem_modifyAt {α : Type} (g : α → α) (l : List α) (i : Nat) (x : α)
    (h : x ∈ modifyAt g l i) : x ∈ l ∨ ∃ a, l[i]? = some a ∧ x = g a := by
  induction l generalizing i with
  | nil => simp [modifyAt] at h
  | cons b bs ih =>
    cases i with
    | zero =>
      simp only [modifyAt, List.mem_cons] at h
      rcases h with h | h
      · exact Or.inr ⟨b, by simp, h⟩
      · exact Or.inl (List.mem_cons_of_mem _ h)
    | succ k =>
      simp only [modifyAt, List.mem_cons] at h
      rcases h with h | h
      · exact Or.inl (by simp [h])
      · rcases ih k h with h' | ⟨a, ha, hx⟩
        · exact Or.inl (List.mem_cons_of_mem _ h')
        · exact Or.inr ⟨a, by simpa using ha, hx⟩

theorem exec_keeps_finished (c : Call) (op : OlapTableSinkOperator) (w : World)
    (h : op._is_finished = true) : (c.exec op w).1._is_finished = true := by
  cases c <;>
    simp [Call.exec, OlapTableSinkOperator.prepare, OlapTableSinkOperator.has_output,
      OlapTableSinkOperator.need_input, OlapTableSinkOperator.push_chunk,
      OlapTableSinkOperator.set_finishing, OlapTableSinkOperator.pending_finish,
      OlapTableSinkOperator.set_cancelled, OlapTableSinkOperator.close, h]

theorem after_keeps_finished (calls : List Call) (op : OlapTableSinkOperator) (w : World)
    (h : op._is_finished = true) : (op.after calls w).1._is_finished = true := by
  induction calls generalizing op w with
  | nil => exact h
  | cons c cs ih =>
    exact ih (c.exec op w).1 (c.exec op w).2 (exec_keeps_finished c op w h)

theorem after_append (op : OlapTableSinkOperator) (xs ys : List Call) (w : World) :
    op.after (xs ++ ys) w = (op.after xs w).1.after ys (op.after xs w).2 := by
  simp [OlapTableSinkOperator.after, List.foldl_append]

theorem exec_frame (c : Call) (op : OlapTableSinkOperator) (w : World) :
    (c.exec op w).1._sink = op._sink
    ∧ (c.exec op w).2.factory._sink = w.factory._sink
    ∧ (c.exec op w).2.factory.base.finalized = w.factory.base.finalized := by
  cases c <;>
    simp [Call.exec, OlapTableSinkOperator.prepare, OlapTableSinkOperator.has_output,
      OlapTableSinkOperator.need_input, OlapTableSinkOperator.push_chunk,
      OlapTableSinkOperator.set_finishing, OlapTableSinkOperator.pending_finish,
      OlapTableSinkOperator.set_cancelled, OlapTableSinkOperator.close,
      World.sink_call, World.report_terminal] <;>
    split <;> simp

theorem exec_counter (c : Call) (op : OlapTableSinkOperator) (w : World)
    (h : op._is_finished = false → 0 < w.factory.base.unfinished) :
    (c.exec op w).2.factory.base.unfinished + (if !op._is_finished then 1 else 0)
      = w.factory.base.unfinished + (if !(c.exec op w).1._is_finished then 1 else 0)
    ∧ (c.exec op w).2.ended.length + (if !(c.exec op w).1._is_finished then 1 else 0)
      = w.ended.length + (if !op._is_finished then 1 else 0) := by
  cases ho : op._is_open_done <;> cases hf : op._is_finished
  all_goals
    have hpos := h
    rw [hf] at hpos
    cases c <;>
      simp [Call.exec, OlapTableSinkOperator.prepare, OlapTableSinkOperator.has_output,
        OlapTableSinkOperator.need_input, OlapTableSinkOperator.push_chunk,
        OlapTableSinkOperator.set_finishing, OlapTableSinkOperator.pending_finish,
        OlapTableSinkOperator.set_cancelled, OlapTableSinkOperator.close,
        World.sink_call, World.report_terminal, ho, hf] <;>
      simp at hpos <;> omega

theorem exec_trace (c : Call) (op : OlapTableSinkOperator) (w : World) :
    (c.exec op w).2.trace.count (op._sink, SinkCall.sink_open)
        + (if op._is_open_done then 1 else 0)
      = w.trace.count (op._sink, SinkCall.sink_open)
        + (if (c.exec op w).1._is_open_done then 1 else 0)
    ∧ (∀ q, (c.exec op w).2.trace.count (q, SinkCall.sink_commit)
        = w.trace.count (q, SinkCall.sink_commit))
    ∧ (∀ q, (c.exec op w).2.trace.count (q, SinkCall.sink_abort)
        = w.trace.count (q, SinkCall.sink_abort)) := by
  cases ho : op._is_open_done <;> cases hf : op._is_finished <;> cases c <;>
    simp [Call.exec, OlapTableSinkOperator.prepare, OlapTableSinkOperator.has_output,
      OlapTableSinkOperator.need_input, OlapTableSinkOperator.push_chunk,
      OlapTableSinkOperator.set_finishing, OlapTableSinkOperator.pending_finish,
      OlapTableSinkOperator.set_cancelled, OlapTableSinkOperator.close,
      World.sink_call, World.report_terminal, ho, hf, List.count_append, List.count_cons]

theorem init_inv (pseudo_id id : Int) (sink : UniquePtr) (fragment_ctx self : Ptr) :
    (System.init pseudo_id id sink fragment_ctx self).Inv := by
  simp [System.Inv, System.init, System.unfinished, System.opened_instances,
    System.open_count, System.finalize_count, OlapTableSinkOperatorFactory.new]

theorem step_create_inv (s : System) (dop seq : Int) (h : s.Inv) :
    (s.step (Event.create dop seq)).Inv := by
  obtain ⟨h1, h2, h3, h4, h5⟩ := h
  simp only [System.Inv, System.unfinished, System.opened_instances, System.open_count,
    System.finalize_count, OlapTableSinkOperator.is_finished] at h1 h3 h4 h5 ⊢
  simp only [System.step, OlapTableSinkOperatorFactory.create, OlapTableSinkOperator.new,
    List.countP_append, List.countP_cons, List.countP_nil, List.length_append,
    List.length_cons, List.length_nil]
  refine ⟨?_, ?_, ?_, ?_, ?_⟩
  · simp [h1]
  · intro op hop
    rcases List.mem_append.mp hop with hop | hop
    · exact h2 op hop
    · simp at hop
      simp [hop]
  · simpa using h3
  · simpa using h4
  · simp
    omega

theorem step_call_inv (s : System) (i : Nat) (c : Call) (h : s.Inv) :
    (s.step (Event.call i c)).Inv := by
  cases hi : s.instances[i]? with
  | none => simpa [System.step, hi] using h
  | some op =>
    obtain ⟨h1, h2, h3, h4, h5⟩ := h
    have hmem : op ∈ s.instances := List.getElem?_mem hi
    have hsink : op._sink = s.factory._sink := h2 op hmem
    have hpos : op._is_finished = false → 0 < s.factory.base.unfinished := by
      intro hf
      rw [h1]
      exact List.countP_pos_iff.mpr ⟨op, hmem, by simp [OlapTableSinkOperator.is_finished, hf]⟩
    obtain ⟨f1, f2, f3⟩ :=
      exec_frame c op { factory := s.factory, trace := s.trace, ended := s.ended }
    obtain ⟨c1, c2⟩ :=
      exec_counter c op { factory := s.factory, trace := s.trace, ended := s.ended } hpos
    obtain ⟨t1, t2, t3⟩ :=
      exec_trace c op { factory := s.factory, trace := s.trace, ended := s.ended }
    have m1 := countP_modifyAt (fun o : OlapTableSinkOperator => !o._is_finished)
      (fun _ => (c.exec op { factory := s.factory, trace := s.trace, ended := s.ended }).1)
      s.instances i op hi
    have m2 := countP_modifyAt (fun o : OlapTableSinkOperator => o._is_open_done)
      (fun _ => (c.exec op { factory := s.factory, trace := s.trace, ended := s.ended }).1)
      s.instances i op hi
    simp only [System.Inv, System.unfinished, System.opened_instances, System.open_count,
      System.finalize_count, OlapTableSinkOperator.is_finished] at h1 h3 h4 h5 ⊢
    simp only [System.step, hi, modifyAt_length]
    simp only at f1 f2 f3 c1 c2 t1 t2 t3 m1 m2
    rw [hsink] at t1
    refine ⟨?_, ?_, ?_, ?_, ?_⟩
    · omega
    · intro o ho
      rcases mem_modifyAt _ _ _ _ ho with ho | ⟨a, _, ha⟩
      · rw [f2]
        exact h2 o ho
      · rw [ha, f1, f2]
        exact hsink
    · rw [f2]
      omega
    · rw [f2, f3, t2, t3]
      exact h4
    · omega

theorem step_close_inv (s : System) (h : s.Inv) : (s.step Event.close).Inv := by
  obtain ⟨h1, h2, h3, h4, h5⟩ := h
  simp only [System.Inv, System.unfinished, System.opened_instances, System.open_count,
    System.finalize_count, OlapTableSinkOperator.is_finished] at h1 h3 h4 h5 ⊢
  simp only [System.step, OlapTableSinkOperatorFactory.close_when_terminal]
  by_cases hc : s.factory.base.unfinished = 0 ∧ s.factory.base.finalized = false
  · rw [if_pos hc]
    rw [hc.2] at h4
    simp only [Bool.false_eq_true, if_false] at h4
    refine ⟨h1, h2, ?_, ?_, h5⟩
    · simp only [OlapTableSinkOperatorFactory.close, OlapTableSinkOperatorFactory.finalize]
      split <;> simpa [List.count_append, List.count_cons] using h3
    · simp only [OlapTableSinkOperatorFactory.close, OlapTableSinkOperatorFactory.finalize]
      split <;> simp [List.count_append, List.count_cons] <;> omega
  · rw [if_neg hc]
    exact ⟨h1, h2, h3, h4, h5⟩

theorem step_inv (s : System) (e : Event) (h : s.Inv) : (s.step e).Inv := by
  cases e with
  | create dop seq => exact step_create_inv s dop seq h
  | call i c => exact step_call_inv s i c h
  | close => exact step_close_inv s h

theorem run_inv (evs : List Event) (s : System) (h : s.Inv) : (s.run evs).Inv := by
  induction evs generalizing s with
  | nil => exact h
  | cons e es ih => exact ih (s.step e) (step_inv s e h)

theorem run_append (s : System) (xs ys : List Event) :
    s.run (xs ++ ys) = (s.run xs).run ys := by
  simp [System.run, List.foldl_append]

theorem create_upto_eq_run (s : System) (dop : Int) (k : Nat) :
    ∃ evs : List Event, System.create_upto s dop k = s.run evs := by
  induction k with
  | zero => exact ⟨[], rfl⟩
  | succ k ih =>
    obtain ⟨evs, he⟩ := ih
    refine ⟨evs ++ [Event.create dop (k : Int)], ?_⟩
    rw [run_append, ← he]
    rfl

theorem create_upto_length (s : System) (dop : Int) (k : Nat) :
    (System.create_upto s dop k).instances.length = s.instances.length + k := by
  induction k with
  | zero => rfl
  | succ k ih =>
    simp only [System.create_upto, System.step, List.length_append, List.length_cons,
      List.length_nil, ih]
    omega

theorem start_inv (pseudo_id id : Int) (sink : UniquePtr) (fragment_ctx self : Ptr)
    (n : Nat) : (System.start pseudo_id id sink fragment_ctx self n).Inv := by
  obtain ⟨evs, he⟩ := create_upto_eq_run
    (System.init pseudo_id id sink fragment_ctx self) (n : Int) n
  unfold System.start
  rw [he]
  exact run_inv evs _ (init_inv pseudo_id id sink fragment_ctx self)

theorem step_length_of_not_create (s : System) (e : Event) (h : e.is_create = false) :
    (s.step e).instances.length = s.instances.length := by
  cases e with
  | create dop seq => simp [Event.is_create] at h
  | call i c =>
    cases hi : s.instances[i]? with
    | none => simp [System.step, hi]
    | some op => simp [System.step, hi, modifyAt_length]
  | close => simp [System.step]

theorem run_length_of_not_create (evs : List Event) (s : System)
    (h : ∀ e ∈ evs, e.is_create = false) :
    (s.run evs).instances.length = s.instances.length := by
  induction evs generalizing s with
  | nil => rfl
  | cons e es ih =>
    have h1 := ih (s.step e) (fun x hx => h x (List.mem_cons_of_mem _ hx))
    have h2 := step_length_of_not_create s e (h e (List.mem_cons_self _ _))
    exact h1.trans h2

theorem finalize_count_step (s : System) (e : Event) (h : s.Inv)
    (hne : (s.step e).finalize_count ≠ s.finalize_count) :
    e = Event.close ∧ s.factory.base.unfinished = 0 ∧ s.factory.base.finalized = false := by
  have h4 := h.2.2.2.1
  have h4' := (step_inv s e h).2.2.2.1
  cases e with
  | create dop seq =>
    exfalso
    apply hne
    rw [h4, h4']
    simp [System.step, OlapTableSinkOperatorFactory.create]
  | call i c =>
    exfalso
    apply hne
    rw [h4, h4']
    cases hi : s.instances[i]? with
    | none => simp [System.step, hi]
    | some op =>
      simp only [System.step, hi]
      rw [(exec_frame c op _).2.2]
  | close =>
    refine ⟨rfl, ?_⟩
    by_contra hc
    apply hne
    simp [System.step, OlapTableSinkOperatorFactory.close_when_terminal, hc]

theorem finalize_count_after_close (s : System) (h : s.Inv) (hz : s.unfinished = 0) :
    (s.step Event.close).finalize_count = 1 := by
  have h4' := (step_inv s Event.close h).2.2.2.1
  rw [h4']
  have h1 := h.1
  rw [hz] at h1
  cases hf : s.factory.base.finalized <;>
    simp [System.step, OlapTableSinkOperatorFactory.close_when_terminal, h1, hf]

/-- C5: `has_output()` returns false for every instance, whatever the values of its
members, and the instance after the call is the instance before it. -/
theorem has_output_false_and_pure (op : OlapTableSinkOperator) :
    op.has_output.1 = false ∧ op.has_output.2 = op :=
  ⟨rfl, rfl⟩

/-- C10: for all constructor arguments, the new instance is not finished and not opened,
refers to the sink and the fragment context it was given, carries the identity it was
given, and the construction makes no call on any sink. -/
theorem new_operator_initial_state (factory : Ptr) (id plan_node_id driver_sequence : Int)
    (sink fragment_ctx : Ptr) (tr : SinkTrace) :
    (OlapTableSinkOperator.new factory id plan_node_id driver_sequence sink
        fragment_ctx tr).1._is_finished = false
    ∧ (OlapTableSinkOperator.new factory id plan_node_id driver_sequence sink
        fragment_ctx tr).1._is_open_done = false
    ∧ (OlapTableSinkOperator.new factory id plan_node_id driver_sequence sink
        fragment_ctx tr).1._sink = sink
    ∧ (OlapTableSinkOperator.new factory id plan_node_id driver_sequence sink
        fragment_ctx tr).1._fragment_ctx = fragment_ctx
    ∧ (OlapTableSinkOperator.new factory id plan_node_id driver_sequence sink
        fragment_ctx tr).1.base
        = { factory := factory, id := id, name := "olap_table_sink",
            plan_node_id := plan_node_id, driver_sequence := driver_sequence }
    ∧ (OlapTableSinkOperator.new factory id plan_node_id driver_sequence sink
        fragment_ctx tr).2 = tr :=
  ⟨rfl, rfl, rfl, rfl, rfl, rfl⟩

/-- C7: constructing a factory from a sink handle leaves the caller's handle empty, puts
the object it held into `_data_sink`, makes `_sink` point to that object (it is what
`_data_sink.get()` gives after the move), stores the fragment context pointer as given,
and the factory owns the sink object and nothing else. -/
theorem factory_new_takes_ownership (pseudo_id id : Int) (sink : UniquePtr)
    (fragment_ctx : Ptr) :
    (OlapTableSinkOperatorFactory.new pseudo_id id sink fragment_ctx).2.obj = none
    ∧ (OlapTableSinkOperatorFactory.new pseudo_id id sink fragment_ctx).1._data_sink.obj
        = sink.obj
    ∧ (OlapTableSinkOperatorFactory.new pseudo_id id sink fragment_ctx).1._sink = sink.get
    ∧ (OlapTableSinkOperatorFactory.new pseudo_id id sink fragment_ctx).1._sink
        = (OlapTableSinkOperatorFactory.new pseudo_id id sink fragment_ctx).1._data_sink.get
    ∧ (OlapTableSinkOperatorFactory.new pseudo_id id sink fragment_ctx).1._fragment_ctx
        = fragment_ctx
    ∧ (OlapTableSinkOperatorFactory.new pseudo_id id sink fragment_ctx).1.owned
        = sink.owned :=
  ⟨rfl, rfl, rfl, rfl, rfl, rfl⟩

/-! ## `create` -/

/-- C4: for every instance and every sequence of calls, once `is_finished()` has
returned true it returns true after every later sequence of calls. -/
theorem is_finished_monotonic (op : OlapTableSinkOperator) (w : World)
    (before later : List Call) (h : (op.after before w).1.is_finished = true) :
    (op.after (before ++ later) w).1.is_finished = true := by
  rw [after_append]
  exact after_keeps_finished later (op.after before w).1 (op.after before w).2 h

/-- A fresh instance is prepared, gets one chunk and is set finishing; it stays finished
when it is then polled, cancelled, pushed to, prepared again and closed. -/
theorem is_finished_monotonic_witness :
    ((OlapTableSinkOperator.new (some 1) 7 (-1) 0 (some 100) (some 200) []).1.after
        [Call.prepare true, Call.push_chunk 5 true, Call.set_finishing]
        sample_world).1.is_finished = true
    ∧ ((OlapTableSinkOperator.new (some 1) 7 (-1) 0 (some 100) (some 200) []).1.after
        ([Call.prepare true, Call.push_chunk 5 true, Call.set_finishing] ++
         [Call.pending_finish false, Call.need_input true, Call.set_cancelled,
          Call.push_chunk 6 false, Call.prepare false, Call.has_output,
          Call.close]) sample_world).1.is_finished = true :=
  ⟨by decide,
   is_finished_monotonic (OlapTableSinkOperator.new (some 1) 7 (-1) 0 (some 100) (some 200) []).1
     sample_world
     [Call.prepare true, Call.push_chunk 5 true, Call.set_finishing]
     [Call.pending_finish false, Call.need_input true, Call.set_cancelled,
      Call.push_chunk 6 false, Call.prepare false, Call.has_output, Call.close]
     (by decide)⟩

/-! ## The open guard and the opens of the shared sink -/

/-- C8, as stated, fails: of two instances of one factory, the first records that the
open is done and reads its guard as set, while the second still reads its guard as not
set. -/
theorem open_guard_is_not_shared :
    (sample_pair.instances.map (fun op => (op.base.factory, op._sink)))
        = [(sample_pair.self, sample_pair.factory._sink),
           (sample_pair.self, sample_pair.factory._sink)]
    ∧ (sample_pair.record_open_done_at 0).observes_open_done 0 = some true
    ∧ ¬ ((sample_pair.record_open_done_at 0).observes_open_done 1 = some true) := by
  decide

/-- C8, amended: the guard is a member of each instance.  Recording on instance `i` that
the open is done sets the guard of instance `i` and leaves the guard of every other
instance `j`, and the factory, as they were. -/
theorem open_guard_is_per_instance (s : System) (i j : Nat) (h : i ≠ j) :
    (s.record_open_done_at i).observes_open_done j = s.observes_open_done j
    ∧ (s.record_open_done_at i).factory = s.factory
    ∧ (s.record_open_done_at i).observes_open_done i
        = (s.observes_open_done i).map (fun _ => true) := by
  refine ⟨?_, rfl, ?_⟩
  · simp [System.record_open_done_at, System.observes_open_done,
      modifyAt_getElem?_ne _ _ i j h]
  · simp only [System.record_open_done_at, System.observes_open_done,
      modifyAt_getElem?_self, Option.map_map]
    rfl

/-- Two instances of one factory, the first one records: the guard of the second one is
what it was, the factory is what it was, and the guard of the first one is set. -/
theorem open_guard_is_per_instance_witness :
    (0 : Nat) ≠ 1
    ∧ ((sample_pair.record_open_done_at 0).observes_open_done 1
          = sample_pair.observes_open_done 1
        ∧ (sample_pair.record_open_done_at 0).factory = sample_pair.factory
        ∧ (sample_pair.record_open_done_at 0).observes_open_done 0
          = (sample_pair.observes_open_done 0).map (fun _ => true)) :=
  ⟨by decide, open_guard_is_per_instance sample_pair 0 1 (by decide)⟩

/-- C9: in every state reached from a newly constructed factory by creations, calls on
the instances and closes, the counter the factory holds is the number of created
instances whose `is_finished()` is false; and a step makes a finalize call on the sink
only when that counter is zero. -/
theorem factory_counter_tracks_unfinished (pseudo_id id : Int) (sink : UniquePtr)
    (fragment_ctx self : Ptr) (evs : List Event) :
    ((System.init pseudo_id id sink fragment_ctx self).run evs).factory.base.unfinished
      = ((System.init pseudo_id id sink fragment_ctx self).run evs).unfinished
    ∧ ∀ e : Event,
        (((System.init pseudo_id id sink fragment_ctx self).run evs).step e).finalize_count
          ≠ ((System.init pseudo_id id sink fragment_ctx self).run evs).finalize_count →
        ((System.init pseudo_id id sink fragment_ctx self).run evs).factory.base.unfinished
          = 0 := by
  have h := run_inv evs _ (init_inv pseudo_id id sink fragment_ctx self)
  exact ⟨h.1, fun e hne => (finalize_count_step _ e h hne).2.1⟩

/-- C2: take `n` instances of one factory and any sequence `evs` of calls on them and of
closes of the factory, after which every instance is terminal.  When the framework then
calls the factory's `close`, exactly one finalize call (commit or abort) has been made
on the shared sink in the whole execution; and the step at which the finalize call was
made is a `close` of the factory, taken in a state where all `n` instances were
terminal and had reported it. -/
theorem finalize_once_after_all_terminal (pseudo_id id : Int) (sink : UniquePtr)
    (fragment_ctx self : Ptr) (n : Nat) (evs : List Event)
    (hcreate : ∀ e ∈ evs, e.is_create = false)
    (hterm : ((System.start pseudo_id id sink fragment_ctx self n).run evs).unfinished = 0) :
    ((System.start pseudo_id id sink fragment_ctx self n).run
        (evs ++ [Event.close])).finalize_count = 1
    ∧ ∀ (before : List Event) (e : Event) (later : List Event),
        evs ++ [Event.close] = before ++ e :: later →
        (((System.start pseudo_id id sink fragment_ctx self n).run before).step e).finalize_count
          ≠ ((System.start pseudo_id id sink fragment_ctx self n).run before).finalize_count →
        e = Event.close
        ∧ ((System.start pseudo_id id sink fragment_ctx self n).run before).instances.length = n
        ∧ ((System.start pseudo_id id sink fragment_ctx self n).run before).unfinished = 0
        ∧ ((System.start pseudo_id id sink fragment_ctx self n).run before).ended.length
            = n := by
  have h0 := start_inv pseudo_id id sink fragment_ctx self n
  have hlen0 : (System.start pseudo_id id sink fragment_ctx self n).instances.length = n := by
    unfold System.start
    rw [create_upto_length]
    simp [System.init]
  constructor
  · rw [run_append]
    exact finalize_count_after_close _ (run_inv evs _ h0) hterm
  · intro before e later hsplit hne
    have hb := run_inv before _ h0
    obtain ⟨he, hz, _⟩ := finalize_count_step _ e hb hne
    have hnc : ∀ x ∈ before, x.is_create = false := by
      intro x hx
      have hx' : x ∈ evs ++ [Event.close] := by
        rw [hsplit]
        exact List.mem_append_left _ hx
      rcases List.mem_append.mp hx' with hx' | hx'
      · exact hcreate x hx'
      · simp at hx'
        rw [hx']
        rfl
    have hlen := (run_length_of_not_create before _ hnc).trans hlen0
    have hu : ((System.start pseudo_id id sink fragment_ctx self n).run before).unfinished
        = 0 := by
      rw [← hb.1]
      exact hz
    have h5 := hb.2.2.2.2
    rw [hu, hlen] at h5
    exact ⟨he, hlen, hu, by simpa using h5⟩

/-- Two instances: the first one gets a chunk and is set finishing, the factory is closed
too early, the second one is cancelled; the later close then makes the one finalize
call of the execution. -/
theorem finalize_once_after_all_terminal_witness :
    (∀ e ∈ [Event.call 0 (Call.push_chunk 11 true), Event.call 0 Call.set_finishing,
        Event.close, Event.call 1 Call.set_cancelled], e.is_create = false)
    ∧ (sample_pair.run [Event.call 0 (Call.push_chunk 11 true),
        Event.call 0 Call.set_finishing, Event.close,
        Event.call 1 Call.set_cancelled]).unfinished = 0
    ∧ (sample_pair.run ([Event.call 0 (Call.push_chunk 11 true),
        Event.call 0 Call.set_finishing, Event.close,
        Event.call 1 Call.set_cancelled] ++ [Event.close])).finalize_count = 1 :=
  ⟨by decide, by decide,
   (finalize_once_after_all_terminal (-1) 7 { obj := some 100 } (some 200) (some 1) 2
      [Event.call 0 (Call.push_chunk 11 true), Event.call 0 Call.set_finishing,
       Event.close, Event.call 1 Call.set_cancelled]
      (by decide) (by decide)).1⟩

end pipeline
end starrocks
